import Mathlib

/-!
Shallow embedding of the CCPNetting margin pipeline.

The Python sources are embedded over exact rational arithmetic (`ℚ`) in
place of IEEE doubles; the irrational horizon scaling `√10` is kept as a
real factor.  Pandas series become Lean lists aligned on a shared index,
missing values (`NaN`) become `Option`, and operations that can raise a
Python exception return `Option`/`Except`.

Source files embedded:
  * src/src/pricing.py  — tenor bucketing, DV01 proxy, IRS and FX P&L
  * src/src/netting.py  — bilateral / CCP netting sets and aggregation
  * src/src/margin.py   — VM outflows and the HS-VaR IM estimator
  * src/run_sim.py      — concentration add-on and netting efficiency
  * src/app.py          — the dashboard variant of the HS-VaR estimator
-/

/-- `Option.none` entries model missing (`NaN`) observations; `dropna`
models `pandas.Series.dropna`, keeping the present values in order. -/
def dropna (l : List (Option ℚ)) : List ℚ :=
  l.filterMap id

/-- `pandas.Series.diff().fillna(0.0)`: first element becomes `0`, each
later element is the difference with its predecessor. -/
def diffFill (l : List ℚ) : List ℚ :=
  match l with
  | [] => []
  | x :: xs => 0 :: List.zipWith (fun a b => a - b) xs (x :: xs)

/-- The linear-interpolation quantile used by both `np.quantile` (its
default method) and `Series.quantile(..., interpolation="linear")`:
sort ascending, take the virtual index `h = cl * (n - 1)` and
interpolate between the two neighbouring order statistics. -/
def quantileLinear (l : List ℚ) (cl : ℚ) : ℚ :=
  let s := l.insertionSort (· ≤ ·)
  let h := cl * ((l.length : ℚ) - 1)
  let i := (Rat.floor h).toNat
  let g := h - (i : ℚ)
  (1 - g) * s.getD i 0 + g * s.getD (i + 1) 0

/-- Traversal of a list under a fallible step: models a Python loop in
which any raised exception propagates and aborts the whole result. -/
def optTraverse (f : α → Option β) : List α → Option (List β)
  | [] => some []
  | a :: l =>
    match f a, optTraverse f l with
    | some b, some bs => some (b :: bs)
    | _, _ => none

/-- One row of the trades CSV (schema of run_sim.py's `--trades` input). -/
structure Trade where
  trade_id : String
  cpty : String
  product : String
  notional : ℚ
  ccy : String
  tenor_yrs : ℤ
  fixed_rate : Option ℚ
  pay_fixed : Bool
  ccypair : String
  side : String
deriving DecidableEq

/-- One row of the rates CSV: the three curve points, as decimals. -/
structure RatesRow where
  rate_2y : ℚ
  rate_5y : ℚ
  rate_10y : ℚ
deriving DecidableEq

/-- pricing.map_tenor_to_curve_col: three-bucket tenor mapping. -/
def map_tenor_to_curve_col (tenor_yrs : ℤ) : String :=
  if tenor_yrs ≤ 2 then "rate_2y"
  else if tenor_yrs ≤ 5 then "rate_5y"
  else "rate_10y"

/-- pricing.dv01_usd: `notional * (0.8*tenor) * 1e-4 * 0.9`. -/
def dv01_usd (notional : ℚ) (tenor_yrs : ℤ) : ℚ :=
  let duration := (4 / 5) * (tenor_yrs : ℚ)
  notional * duration * (1 / 10000) * (9 / 10)

/-- Column selection `rates_df[col]` for the three known curve columns. -/
def curveCol (rates : List RatesRow) (col : String) : List ℚ :=
  if col = "rate_2y" then rates.map (fun r => r.rate_2y)
  else if col = "rate_5y" then rates.map (fun r => r.rate_5y)
  else rates.map (fun r => r.rate_10y)

/-- pricing.pnl_irs_dv01: `sign * dv01 * (-Δrate)` on the selected curve
column, first day zero via `diff().fillna(0)`. -/
def pnl_irs_dv01 (t : Trade) (rates : List RatesRow) : List ℚ :=
  let col := map_tenor_to_curve_col t.tenor_yrs
  let dr := diffFill (curveCol rates col)
  let dv01 := dv01_usd t.notional t.tenor_yrs
  let sign : ℚ := if t.pay_fixed then 1 else -1
  dr.map (fun d => sign * dv01 * (-d))

/-- Lookup of an FX column by currency-pair name (`fx_df[pair]`). -/
def fxCol (fx : List (String × List ℚ)) (pair : String) : Option (List ℚ) :=
  (fx.find? (fun p => p.1 == pair)).map (fun p => p.2)

/-- pricing.pnl_fxfwd: `sign * notional * Δspot`; raises when the pair is
absent from the FX table. -/
def pnl_fxfwd (t : Trade) (fx : List (String × List ℚ)) : Except String (List ℚ) :=
  match fxCol fx t.ccypair with
  | none => Except.error ("FX pair " ++ t.ccypair ++ " not found in fx data.")
  | some s =>
    let dS := diffFill s
    let sign : ℚ := if t.side = "BUY" then 1 else -1
    Except.ok (dS.map (fun d => sign * t.notional * d))

/-- The distinct counterparty keys of `trades.groupby("cpty")`, in the
ascending order pandas produces (groupby sorts group keys). -/
def cptyKeys (trades : List Trade) : List String :=
  ((trades.map (fun t => t.cpty)).dedup).insertionSort (· ≤ ·)

/-- netting.netting_sets_bilateral: one set `BILAT::<cpty>` per distinct
counterparty, holding that group's trade ids in row order. -/
def netting_sets_bilateral (trades : List Trade) : List (String × List String) :=
  (cptyKeys trades).map (fun c =>
    ("BILAT::" ++ c, (trades.filter (fun t => t.cpty == c)).map (fun t => t.trade_id)))

/-- netting.netting_set_ccp: the single pooled set of every trade id. -/
def netting_set_ccp (trades : List Trade) : List (String × List String) :=
  [("CCP::ALL", trades.map (fun t => t.trade_id))]

/-- The column names of a trade-level P&L table (`pnl_df.columns`). -/
def colNames (pnl : List (String × List ℚ)) : List String :=
  pnl.map (fun p => p.1)

/-- Column lookup `pnl_df[c]` for a single name, `none` when absent. -/
def lookupCol (pnl : List (String × List ℚ)) (c : String) : Option (List ℚ) :=
  (pnl.find? (fun p => p.1 == c)).map (fun p => p.2)

/-- Multi-column selection `pnl_df[cols]`: raises (`none`) when any
requested column is missing, otherwise yields the columns in order. -/
def selectCols (pnl : List (String × List ℚ)) (cols : List String) :
    Option (List (List ℚ)) :=
  if cols.all (fun c => (colNames pnl).contains c) then
    some (cols.map (fun c => (lookupCol pnl c).getD []))
  else none

/-- `pnl_df[cols].sum(axis=1)` over an index of length `n`: elementwise
sum of the selected columns, the zero series when no column selected. -/
def sumSeries (n : ℕ) (cols : List (List ℚ)) : List ℚ :=
  cols.foldr (fun c acc => List.zipWith (fun a b => a + b) c acc) (List.replicate n 0)

/-- netting.aggregate_set_pnl: for each named set keep only the member
ids that are columns of the P&L table, then sum those columns per date.
`n` is the length of the shared date index. -/
def aggregate_set_pnl (n : ℕ) (pnl : List (String × List ℚ))
    (netting_map : List (String × List String)) : Option (List (String × List ℚ)) :=
  optTraverse (fun p =>
    (selectCols pnl (p.2.filter (fun c => (colNames pnl).contains c))).map
      (fun cols => (p.1, sumSeries n cols))) netting_map

/-- margin.vm_outflows: `(-pnl).clip(lower=0.0)`. -/
def vm_outflows (pnl : List ℚ) : List ℚ :=
  pnl.map (fun x => max (-x) 0)

/-- margin.im_hs_var: negate to losses, drop missing values, take the
`cl` quantile and scale by `√horizon_days`.  Both branches of the
sample-size switch use the same linear-interpolation quantile (numpy's
default method and `interpolation="linear"` coincide); `np.quantile`
raises on an empty sample, modelled as `none`. -/
noncomputable def im_hs_var (pnl : List (Option ℚ)) (cl : ℚ) (horizon_days : ℕ) : Option ℝ :=
  let losses := (dropna pnl).map (fun x => -x)
  if losses.length = 0 then none
  else if losses.length < 50 then
    some ((quantileLinear losses cl : ℝ) * Real.sqrt (horizon_days : ℝ))
  else
    some ((quantileLinear losses cl : ℝ) * Real.sqrt (horizon_days : ℝ))

/-- margin.collateral_delta: `(im_ccp + vm_ccp) - (im_bil + vm_bil)`. -/
def collateral_delta (im_ccp vm_ccp im_bil vm_bil : ℚ) : ℚ :=
  (im_ccp + vm_ccp) - (im_bil + vm_bil)

/-- app.py's im_hs_var: the dashboard variant returns `0.0` outright for
fewer than 10 loss observations, then quantiles and scales as above. -/
noncomputable def im_hs_var_app (pnl : List (Option ℚ)) (cl : ℚ) (horizon_days : ℕ) : ℝ :=
  let losses := (dropna pnl).map (fun x => -x)
  if losses.length < 10 then 0
  else (quantileLinear losses cl : ℝ) * Real.sqrt (horizon_days : ℝ)

/-- run_sim.main: `trades.groupby("cpty")["notional"].apply(lambda s:
float(np.abs(s).sum()))` — total absolute notional per counterparty,
keyed in the sorted group order. -/
def abs_notional_by_cpty (trades : List Trade) : List ℚ :=
  (cptyKeys trades).map (fun c =>
    ((trades.filter (fun t => t.cpty == c)).map (fun t => |t.notional|)).sum)

/-- run_sim.main's concentration add-on block: when both scenario knobs
are positive, accumulate `addon_factor_bil += conc_addon_pct` once per
counterparty whose absolute notional exceeds the threshold and scale the
bilateral IM by the resulting factor; scale the CCP IM by
`1 + conc_addon_pct` when the whole book's absolute notional exceeds the
threshold.  Returns the pair (adjusted bilateral IM, adjusted CCP IM). -/
def conc_adjust (trades : List Trade) (conc_threshold conc_addon_pct im_bilateral im_ccp : ℚ) :
    ℚ × ℚ :=
  if 0 < conc_threshold ∧ 0 < conc_addon_pct then
    let factor := (abs_notional_by_cpty trades).foldl
      (fun acc total_abs => if conc_threshold < total_abs then acc + conc_addon_pct else acc) 1
    let total_abs_notional := (trades.map (fun t => |t.notional|)).sum
    (im_bilateral * factor,
      if conc_threshold < total_abs_notional then im_ccp * (1 + conc_addon_pct) else im_ccp)
  else (im_bilateral, im_ccp)

/-- run_sim.main: `1.0 - (im_ccp / im_bilateral) if im_bilateral > 0
else np.nan`; the NaN sentinel is modelled as `none`. -/
def netting_efficiency (im_ccp im_bilateral : ℚ) : Option ℚ :=
  if 0 < im_bilateral then some (1 - im_ccp / im_bilateral) else none

/-- A two-counterparty book in which both counterparties breach a
threshold of 100: used to exercise the concentration add-on. -/
def exTradesConc : List Trade :=
  [⟨"T1", "B", "IRS", 200, "USD", 5, none, true, "", ""⟩,
   ⟨"T2", "A", "IRS", 200, "USD", 5, none, true, "", ""⟩]

/-- A three-observation P&L series of pure losses (sparse data). -/
def exPnlSparse : List (Option ℚ) :=
  [some (-1), some (-2), some (-3)]

/-- A three-observation P&L series of pure gains. -/
def exPnlGains : List (Option ℚ) :=
  [some 1, some 2, some 3]

/-- The spec's concrete scenario 1: one IRS trade, notional 1,000,000,
tenor 5y, paying fixed. -/
def exTradeIrs : Trade :=
  ⟨"IRS1", "CP1", "IRS", 1000000, "USD", 5, none, true, "", ""⟩

/-- The spec's concrete scenario 1 rate curve: the 5y point moves from
0.0300 on day 1 to 0.0290 on day 2. -/
def exRatesMove : List RatesRow :=
  [⟨1 / 50, 3 / 100, 1 / 25⟩, ⟨1 / 50, 29 / 1000, 1 / 25⟩]

/-- A four-trade, two-counterparty book with distinct trade ids. -/
def exTradesBook : List Trade :=
  [⟨"T1", "CPB", "IRS", 1000000, "USD", 5, none, true, "", ""⟩,
   ⟨"T2", "CPA", "FXFWD", 2000000, "USD", 0, none, false, "EURUSD", "BUY"⟩,
   ⟨"T3", "CPB", "IRS", 500000, "USD", 2, none, false, "", ""⟩,
   ⟨"T4", "CPA", "FXFWD", 300000, "USD", 0, none, false, "GBPUSD", "SELL"⟩]

/-- An FX forward trade on EURUSD, used to exercise pnl_fxfwd. -/
def exTradeFx : Trade :=
  ⟨"FX1", "CP2", "FXFWD", 2000000, "USD", 0, none, false, "EURUSD", "BUY"⟩

/-- A one-pair FX table with two observed spots. -/
def exFxTable : List (String × List ℚ) :=
  [("EURUSD", [11 / 10, 221 / 200])]

/-- A one-column trade-level P&L table on a two-date index. -/
def exPnlTable : List (String × List ℚ) :=
  [("T1", [5, -3])]

/-- A netting map whose set names one present and one absent trade id. -/
def exNettingMap : List (String × List String) :=
  [("BILAT::CPA", ["T1", "T9"])]

/-! ## Helper lemmas -/

theorem getD_map_lt {α β : Type} (f : α → β) (l : List α) (i : ℕ) (h : i < l.length)
    (d : α) (e : β) : (l.map f).getD i e = f (l.getD i d) := by
  induction l generalizing i with
  | nil => simp at h
  | cons x xs ih =>
    cases i with
    | zero => rfl
    | succ j =>
      simp only [List.length_cons, Nat.succ_lt_succ_iff] at h
      simpa using ih j h

/-! ## C6 — VM outflows -/

/-- C6: for every P&L series and every date, the VM outflow equals
`max(-P&L, 0)`: it is nonnegative, equals `-P&L` exactly on loss days,
and is `0` otherwise. -/
theorem vm_outflow_spec (pnl : List ℚ) (i : ℕ) (h : i < pnl.length) :
    (vm_outflows pnl).getD i 0 = max (-(pnl.getD i 0)) 0
    ∧ 0 ≤ (vm_outflows pnl).getD i 0
    ∧ (pnl.getD i 0 < 0 → (vm_outflows pnl).getD i 0 = -(pnl.getD i 0))
    ∧ (0 ≤ pnl.getD i 0 → (vm_outflows pnl).getD i 0 = 0) := by
  have hmap : (vm_outflows pnl).getD i 0 = max (-(pnl.getD i 0)) 0 := by
    have := getD_map_lt (fun x => max (-x) 0) pnl i h 0 0
    simpa [vm_outflows] using this
  refine ⟨hmap, ?_, ?_, ?_⟩
  · rw [hmap]; exact le_max_right _ _
  · intro hneg
    rw [hmap]
    exact max_eq_left (by linarith)
  · intro hpos
    rw [hmap]
    exact max_eq_right (by linarith)

/-- Witness for C6 at the series `[-5]`, date index `0`. -/
theorem vm_outflow_spec_witness :
    (0 < ([-5] : List ℚ).length)
    ∧ ((vm_outflows [-5]).getD 0 0 = max (-(([-5] : List ℚ).getD 0 0)) 0
        ∧ 0 ≤ (vm_outflows [-5]).getD 0 0
        ∧ (([-5] : List ℚ).getD 0 0 < 0 → (vm_outflows [-5]).getD 0 0 = -(([-5] : List ℚ).getD 0 0))
        ∧ (0 ≤ ([-5] : List ℚ).getD 0 0 → (vm_outflows [-5]).getD 0 0 = 0)) :=
  ⟨by decide, vm_outflow_spec [-5] 0 (by decide)⟩

/-! ## C7 — netting efficiency -/

/-- C7 counterexample: a nonzero (negative) bilateral IM for which the
code reports the NaN sentinel instead of `1 - im_ccp / im_bilateral`;
the claim's "whenever the bilateral IM is nonzero" branch is false. -/
theorem netting_efficiency_nonzero_but_nan :
    ((-1 : ℚ) ≠ 0)
    ∧ netting_efficiency 1 (-1) = none
    ∧ netting_efficiency 1 (-1) ≠ some (1 - 1 / (-1)) := by
  refine ⟨by norm_num, ?_, ?_⟩
  · simp [netting_efficiency]
  · simp [netting_efficiency]

/-- C7 (amended): the netting efficiency equals
`1 - im_ccp / im_bilateral` whenever the bilateral IM is strictly
positive, and is the NaN sentinel whenever it is zero or negative. -/
theorem netting_efficiency_cases (im_ccp im_bilateral : ℚ) :
    (0 < im_bilateral →
      netting_efficiency im_ccp im_bilateral = some (1 - im_ccp / im_bilateral))
    ∧ (im_bilateral ≤ 0 → netting_efficiency im_ccp im_bilateral = none) := by
  constructor
  · intro hpos
    simp [netting_efficiency, hpos]
  · intro hnp
    simp [netting_efficiency, not_lt.mpr hnp]

/-- Witness for C7 at `im_ccp = 1`, `im_bilateral = 2` and at
`im_bilateral = 0`. -/
theorem netting_efficiency_cases_witness :
    ((0 : ℚ) < 2 ∧ netting_efficiency 1 2 = some (1 - 1 / 2))
    ∧ ((0 : ℚ) ≤ 0 ∧ netting_efficiency 1 0 = none) :=
  ⟨⟨by norm_num, (netting_efficiency_cases 1 2).1 (by norm_num)⟩,
   ⟨le_refl 0, (netting_efficiency_cases 1 0).2 (le_refl 0)⟩⟩

/-! ## C3 — concrete IRS scenario -/

/-- C3 counterexample: for the spec's scenario 1 (IRS, notional
1,000,000, tenor 5y, pay fixed, 5y rate 0.0300 → 0.0290) the day-2 P&L
produced by the pricing engine is not the spec's stated `+360.00`. -/
theorem irs_day2_pnl_not_360 :
    (pnl_irs_dv01 exTradeIrs exRatesMove).getD 1 0 ≠ 360 := by
  have hcol : curveCol exRatesMove (map_tenor_to_curve_col exTradeIrs.tenor_yrs)
      = [3 / 100, 29 / 1000] := rfl
  simp only [pnl_irs_dv01, hcol]
  norm_num [diffFill, dv01_usd, exTradeIrs]

/-- C3 (amended): in the spec's scenario 1 the day-2 P&L equals
`+0.36 = sign × dv01 × (-Δrate) = 1 × 360 × 0.0010`: the spec's own
formula, whose stated value `+360.00` is an arithmetic slip. -/
theorem irs_day2_pnl_value :
    (pnl_irs_dv01 exTradeIrs exRatesMove).getD 1 0 = 9 / 25 := by
  have hcol : curveCol exRatesMove (map_tenor_to_curve_col exTradeIrs.tenor_yrs)
      = [3 / 100, 29 / 1000] := rfl
  simp only [pnl_irs_dv01, hcol]
  norm_num [diffFill, dv01_usd, exTradeIrs]

/-! ## C8 — first-day P&L is zero -/

theorem head_diffFill_map (l : List ℚ) (hl : l ≠ []) (f : ℚ → ℚ) :
    ((diffFill l).map f).head? = some (f 0) := by
  cases l with
  | nil => exact absurd rfl hl
  | cons x xs => simp [diffFill]

theorem curveCol_ne_nil (rates : List RatesRow) (col : String) (hr : rates ≠ []) :
    curveCol rates col ≠ [] := by
  unfold curveCol
  split
  · simpa using hr
  · split <;> simpa using hr

/-- C8: for an interest-rate swap priced on a nonempty rates table, and
for an FX forward whose currency pair is present with a nonempty spot
series, the P&L value on the first date of the aligned index is `0`
(the `diff().fillna(0)` convention). -/
theorem first_day_pnl_zero (t : Trade) (rates : List RatesRow)
    (fx : List (String × List ℚ)) (s : List ℚ)
    (hr : rates ≠ []) (hfx : fxCol fx t.ccypair = some s) (hs : s ≠ []) :
    (pnl_irs_dv01 t rates).head? = some 0
    ∧ ∃ res, pnl_fxfwd t fx = Except.ok res ∧ res.head? = some 0 := by
  constructor
  · have hc := curveCol_ne_nil rates (map_tenor_to_curve_col t.tenor_yrs) hr
    have := head_diffFill_map (curveCol rates (map_tenor_to_curve_col t.tenor_yrs)) hc
      (fun d => (if t.pay_fixed then (1 : ℚ) else -1) * dv01_usd t.notional t.tenor_yrs * (-d))
    simpa [pnl_irs_dv01] using this
  · refine ⟨(diffFill s).map
      (fun d => (if t.side = "BUY" then (1 : ℚ) else -1) * t.notional * d), ?_, ?_⟩
    · simp [pnl_fxfwd, hfx]
    · have := head_diffFill_map s hs
        (fun d => (if t.side = "BUY" then (1 : ℚ) else -1) * t.notional * d)
      simpa using this

/-- Witness for C8: the EURUSD forward of `exFxTable` and the two-row
rate curve `exRatesMove`. -/
theorem first_day_pnl_zero_witness :
    (exRatesMove ≠ [] ∧ fxCol exFxTable exTradeFx.ccypair = some [11 / 10, 221 / 200]
      ∧ ([11 / 10, 221 / 200] : List ℚ) ≠ [])
    ∧ ((pnl_irs_dv01 exTradeFx exRatesMove).head? = some 0
      ∧ ∃ res, pnl_fxfwd exTradeFx exFxTable = Except.ok res ∧ res.head? = some 0) :=
  ⟨⟨by simp [exRatesMove], rfl, by simp⟩,
   first_day_pnl_zero exTradeFx exRatesMove exFxTable [11 / 10, 221 / 200]
     (by simp [exRatesMove]) rfl (by simp)⟩

/-! ## C2 — sparse-data behaviour of the IM estimators -/

/-- C2 counterexample: a P&L series with only 3 (< 10) observations on
which the pipeline's `im_hs_var` (src/margin.py) returns a nonzero IM
estimate instead of the claimed 0. -/
theorem im_hs_var_sparse_not_zero :
    (dropna exPnlSparse).length < 10
    ∧ im_hs_var exPnlSparse (99 / 100) 10 ≠ some 0 := by
  constructor
  · decide
  · have hlosses : ((dropna exPnlSparse).map (fun x : ℚ => -x)) = [1, 2, 3] := by decide
    have hq : quantileLinear [1, 2, 3] (99 / 100) = 149 / 50 := by
      norm_num [quantileLinear, List.insertionSort, List.orderedInsert, Rat.floor]
    have him : im_hs_var exPnlSparse (99 / 100) 10
        = some (((149 / 50 : ℚ) : ℝ) * Real.sqrt ((10 : ℕ) : ℝ)) := by
      simp [im_hs_var, hlosses, hq]
    rw [him]
    have hpos : (0 : ℝ) < ((149 / 50 : ℚ) : ℝ) * Real.sqrt ((10 : ℕ) : ℝ) := by
      refine mul_pos ?_ (Real.sqrt_pos.mpr ?_)
      · norm_num
      · norm_num
    intro hcontra
    rw [Option.some_inj] at hcontra
    linarith

/-- C2 (amended): it is the dashboard variant of the estimator
(app.py's `im_hs_var`) that returns 0 for every P&L series with fewer
than 10 non-missing observations; the pipeline variant (src/margin.py)
has no such guard and quantiles any nonempty sample. -/
theorem im_hs_var_app_zero_on_sparse (pnl : List (Option ℚ)) (cl : ℚ) (horizon_days : ℕ)
    (h : (dropna pnl).length < 10) : im_hs_var_app pnl cl horizon_days = 0 := by
  have hlen : ((dropna pnl).map (fun x : ℚ => -x)).length < 10 := by simpa using h
  simp only [im_hs_var_app]
  rw [if_pos hlen]

/-- Witness for C2 (amended) on the 3-observation series. -/
theorem im_hs_var_app_zero_on_sparse_witness :
    (dropna exPnlSparse).length < 10
    ∧ im_hs_var_app exPnlSparse (99 / 100) 10 = 0 :=
  ⟨by decide, im_hs_var_app_zero_on_sparse exPnlSparse (99 / 100) 10 (by decide)⟩

/-! ## C10 — the IM estimate has no floor at zero -/

/-- C10: on a P&L series of pure gains the 99th-percentile loss is
negative and `im_hs_var` returns a strictly negative IM value — the
estimator has no floor at zero. -/
theorem im_hs_var_can_be_negative :
    ∃ v : ℝ, im_hs_var exPnlGains (99 / 100) 10 = some v ∧ v < 0 := by
  have hlosses : ((dropna exPnlGains).map (fun x : ℚ => -x)) = [-1, -2, -3] := by decide
  have hq : quantileLinear [-1, -2, -3] (99 / 100) = -51 / 50 := by
    norm_num [quantileLinear, List.insertionSort, List.orderedInsert, Rat.floor]
  refine ⟨((-51 / 50 : ℚ) : ℝ) * Real.sqrt ((10 : ℕ) : ℝ), ?_, ?_⟩
  · simp [im_hs_var, hlosses, hq]
  · refine mul_neg_of_neg_of_pos ?_ (Real.sqrt_pos.mpr ?_)
    · norm_num
    · norm_num

/-! ## C1 — concentration add-on -/

theorem foldl_conc_addon (l : List ℚ) (thr pct : ℚ) (acc : ℚ) :
    l.foldl (fun a total_abs => if thr < total_abs then a + pct else a) acc
      = acc + (l.countP (fun total_abs => decide (thr < total_abs)) : ℚ) * pct := by
  induction l generalizing acc with
  | nil => simp
  | cons x xs ih =>
    simp only [List.foldl_cons, List.countP_cons]
    by_cases hx : thr < x
    · rw [if_pos hx, ih]
      norm_num [hx]
      ring
    · rw [if_neg hx, ih]
      norm_num [hx]

theorem abs_notional_by_cpty_conc : abs_notional_by_cpty exTradesConc = [200, 200] := by
  have hkeys : cptyKeys exTradesConc = ["A", "B"] := by
    norm_num [cptyKeys, exTradesConc, List.insertionSort, List.orderedInsert, List.dedup,
      List.pwFilter]
    decide
  have hBA : (("B" : String) == "A") = false := rfl
  have hAA : (("A" : String) == "A") = true := rfl
  have hBB : (("B" : String) == "B") = true := rfl
  have hAB : (("A" : String) == "B") = false := rfl
  have h200 : |(200 : ℚ)| = 200 := abs_of_pos (by norm_num)
  simp only [abs_notional_by_cpty, hkeys]
  norm_num [exTradesConc, List.filter, hBA, hAA, hBB, hAB, h200]

/-- C1 counterexample: with two breaching counterparties (absolute
notional 200 each against a threshold of 100) and `addon_pct = 0.1`, the
code scales the bilateral IM by the additive factor `1 + 2×0.1 = 1.2`,
not the claimed compounded factor `(1 + 0.1)² = 1.21`. -/
theorem conc_addon_not_compounding :
    (conc_adjust exTradesConc 100 (1 / 10) 1 1).1 = 6 / 5
    ∧ (6 / 5 : ℚ) ≠ 1 * (1 + 1 / 10) ^ 2 := by
  constructor
  · simp only [conc_adjust]
    rw [if_pos (by norm_num : (0 : ℚ) < 100 ∧ (0 : ℚ) < 1 / 10)]
    simp only [abs_notional_by_cpty_conc]
    norm_num [List.foldl]
  · norm_num

/-- C1 (amended): when both scenario knobs are positive the bilateral IM
is scaled by the additive factor `1 + n × addon_pct`, where `n` is the
number of counterparties whose absolute notional exceeds the threshold
(not the multiplicative `(1 + addon_pct)^n`), and the CCP IM is scaled
by `1 + addon_pct` exactly once when the total absolute book notional
exceeds the threshold. -/
theorem conc_addon_additive_bilateral (trades : List Trade) (thr pct im_bil im_ccp : ℚ)
    (h1 : 0 < thr) (h2 : 0 < pct) :
    conc_adjust trades thr pct im_bil im_ccp
      = (im_bil * (1 + ((abs_notional_by_cpty trades).countP
            (fun total_abs => decide (thr < total_abs)) : ℚ) * pct),
        if thr < (trades.map (fun t => |t.notional|)).sum then im_ccp * (1 + pct)
        else im_ccp) := by
  simp only [conc_adjust]
  rw [if_pos ⟨h1, h2⟩, foldl_conc_addon]

/-- Witness for C1 (amended) on the two-counterparty book. -/
theorem conc_addon_additive_bilateral_witness :
    ((0 : ℚ) < 100 ∧ (0 : ℚ) < 1 / 10)
    ∧ conc_adjust exTradesConc 100 (1 / 10) 1 1
      = (1 * (1 + ((abs_notional_by_cpty exTradesConc).countP
            (fun total_abs => decide ((100 : ℚ) < total_abs)) : ℚ) * (1 / 10)),
        if (100 : ℚ) < (exTradesConc.map (fun t => |t.notional|)).sum then 1 * (1 + 1 / 10)
        else 1) :=
  ⟨⟨by norm_num, by norm_num⟩,
   conc_addon_additive_bilateral exTradesConc 100 (1 / 10) 1 1 (by norm_num) (by norm_num)⟩

/-! ## C4 — positive homogeneity of the HS-VaR IM -/

theorem im_hs_var_eq (pnl : List (Option ℚ)) (cl : ℚ) (horizon_days : ℕ) :
    im_hs_var pnl cl horizon_days
      = if ((dropna pnl).map (fun x : ℚ => -x)).length = 0 then none
        else some ((quantileLinear ((dropna pnl).map (fun x : ℚ => -x)) cl : ℝ)
          * Real.sqrt ((horizon_days : ℕ) : ℝ)) := by
  simp only [im_hs_var, ite_self]

theorem insertionSort_map_mul_left (k : ℚ) (hk : 0 < k) (l : List ℚ) :
    (l.map (fun x => k * x)).insertionSort (· ≤ ·)
      = (l.insertionSort (· ≤ ·)).map (fun x => k * x) := by
  haveI : IsAntisymm ℚ (· ≤ ·) := ⟨fun a b h1 h2 => le_antisymm h1 h2⟩
  refine List.eq_of_perm_of_sorted (r := (· ≤ ·)) ?_ ?_ ?_
  · exact (List.perm_insertionSort _ _).trans
      (((List.perm_insertionSort (· ≤ ·) l).map (fun x => k * x)).symm)
  · exact List.sorted_insertionSort _ _
  · exact List.Pairwise.map _ (fun a b hab => mul_le_mul_of_nonneg_left hab hk.le)
      (List.sorted_insertionSort _ l)

theorem getD_map_mul (k : ℚ) (l : List ℚ) (i : ℕ) :
    (l.map (fun x => k * x)).getD i 0 = k * l.getD i 0 := by
  induction l generalizing i with
  | nil => simp
  | cons x xs ih =>
    cases i with
    | zero => rfl
    | succ j => simpa using ih j

theorem quantileLinear_smul (k : ℚ) (hk : 0 < k) (l : List ℚ) (cl : ℚ) :
    quantileLinear (l.map (fun x => k * x)) cl = k * quantileLinear l cl := by
  simp only [quantileLinear, List.length_map, insertionSort_map_mul_left k hk, getD_map_mul]
  ring

theorem dropna_scale (k : ℚ) (pnl : List (Option ℚ)) :
    dropna (pnl.map (Option.map (fun x => k * x))) = (dropna pnl).map (fun x => k * x) := by
  simp only [dropna, List.filterMap_map, List.map_filterMap]
  rfl

/-- C4: scaling every P&L observation by a constant `k ≥ 1` (the
`stress_mult` mechanism) scales the HS-VaR IM estimate by exactly `k`,
for every P&L series — including the degenerate empty one, where both
sides degenerate alike. -/
theorem im_hs_var_homogeneous (k : ℚ) (hk : 1 ≤ k) (pnl : List (Option ℚ)) :
    im_hs_var (pnl.map (Option.map (fun x => k * x))) (99 / 100) 10
      = (im_hs_var pnl (99 / 100) 10).map (fun v => (k : ℝ) * v) := by
  have hk0 : 0 < k := lt_of_lt_of_le one_pos hk
  have hloss : ((dropna (pnl.map (Option.map (fun x => k * x)))).map (fun x : ℚ => -x))
      = ((dropna pnl).map (fun x : ℚ => -x)).map (fun x => k * x) := by
    rw [dropna_scale]
    simp only [List.map_map]
    congr 1
    funext x
    simp [mul_neg]
  rw [im_hs_var_eq, im_hs_var_eq, hloss, List.length_map]
  by_cases h0 : ((dropna pnl).map (fun x : ℚ => -x)).length = 0
  · rw [if_pos h0, if_pos h0]
    rfl
  · rw [if_neg h0, if_neg h0, quantileLinear_smul k hk0]
    simp only [Option.map_some']
    congr 1
    push_cast
    ring

/-- Witness for C4 at `k = 2` on a three-observation series. -/
theorem im_hs_var_homogeneous_witness :
    (1 : ℚ) ≤ 2
    ∧ im_hs_var ([some 1, some (-2), some 3].map (Option.map (fun x : ℚ => 2 * x))) (99 / 100) 10
      = (im_hs_var [some 1, some (-2), some 3] (99 / 100) 10).map (fun v => ((2 : ℚ) : ℝ) * v) :=
  ⟨by norm_num, im_hs_var_homogeneous 2 (by norm_num) [some 1, some (-2), some 3]⟩

/-! ## C5 — netting sets partition the trade book -/

theorem mem_cptyKeys (trades : List Trade) (c : String) :
    c ∈ cptyKeys trades ↔ ∃ t ∈ trades, t.cpty = c := by
  simp [cptyKeys]

theorem cptyKeys_nodup (trades : List Trade) : (cptyKeys trades).Nodup :=
  ((List.perm_insertionSort (· ≤ ·) _).nodup_iff).mpr
    (List.nodup_dedup (trades.map (fun t => t.cpty)))

theorem mem_group_ids (trades : List Trade) (c tid : String) :
    tid ∈ (trades.filter (fun t => t.cpty == c)).map (fun t => t.trade_id)
    ↔ ∃ t ∈ trades, t.cpty = c ∧ t.trade_id = tid := by
  simp only [List.mem_map, List.mem_filter, beq_iff_eq]
  constructor
  · rintro ⟨t, ⟨ht, hc⟩, hid⟩
    exact ⟨t, ht, hc, hid⟩
  · rintro ⟨t, ht, hc, hid⟩
    exact ⟨t, ⟨ht, hc⟩, hid⟩

/-- C5: when trade ids are unique, the bilateral netting sets are
pairwise disjoint, the union of their member lists is exactly the set of
all trade ids, and the single CCP set contains exactly every trade id. -/
theorem netting_sets_partition (trades : List Trade)
    (h : (trades.map (fun t => t.trade_id)).Nodup) :
    List.Pairwise (fun s1 s2 => ∀ tid, tid ∈ s1.2 → tid ∉ s2.2)
      (netting_sets_bilateral trades)
    ∧ (∀ tid, (∃ s ∈ netting_sets_bilateral trades, tid ∈ s.2)
        ↔ tid ∈ trades.map (fun t => t.trade_id))
    ∧ (∀ s ∈ netting_set_ccp trades,
        ∀ tid, tid ∈ s.2 ↔ tid ∈ trades.map (fun t => t.trade_id)) := by
  have hinj := List.inj_on_of_nodup_map h
  refine ⟨?_, ?_, ?_⟩
  · unfold netting_sets_bilateral
    rw [List.pairwise_map]
    refine (cptyKeys_nodup trades).imp ?_
    intro c c' hne tid h1 h2
    rw [mem_group_ids] at h1 h2
    obtain ⟨t, ht, hc, hid⟩ := h1
    obtain ⟨t', ht', hc', hid'⟩ := h2
    have : t = t' := hinj ht ht' (hid.trans hid'.symm)
    exact hne (hc.symm.trans (this ▸ hc'))
  · intro tid
    constructor
    · rintro ⟨s, hs, htid⟩
      obtain ⟨c, _, rfl⟩ := List.mem_map.mp hs
      rw [mem_group_ids] at htid
      obtain ⟨t, ht, _, hid⟩ := htid
      exact List.mem_map.mpr ⟨t, ht, hid⟩
    · intro htid
      obtain ⟨t, ht, hid⟩ := List.mem_map.mp htid
      refine ⟨("BILAT::" ++ t.cpty,
        (trades.filter (fun u => u.cpty == t.cpty)).map (fun u => u.trade_id)), ?_, ?_⟩
      · exact List.mem_map.mpr ⟨t.cpty, (mem_cptyKeys trades t.cpty).mpr ⟨t, ht, rfl⟩, rfl⟩
      · exact (mem_group_ids trades t.cpty tid).mpr ⟨t, ht, rfl, hid⟩
  · intro s hs tid
    simp only [netting_set_ccp, List.mem_singleton] at hs
    subst hs
    exact Iff.rfl

/-- Witness for C5 on the four-trade, two-counterparty book. -/
theorem netting_sets_partition_witness :
    (exTradesBook.map (fun t => t.trade_id)).Nodup
    ∧ (List.Pairwise (fun s1 s2 => ∀ tid, tid ∈ s1.2 → tid ∉ s2.2)
        (netting_sets_bilateral exTradesBook)
      ∧ (∀ tid, (∃ s ∈ netting_sets_bilateral exTradesBook, tid ∈ s.2)
          ↔ tid ∈ exTradesBook.map (fun t => t.trade_id))
      ∧ (∀ s ∈ netting_set_ccp exTradesBook,
          ∀ tid, tid ∈ s.2 ↔ tid ∈ exTradesBook.map (fun t => t.trade_id))) :=
  ⟨by decide, netting_sets_partition exTradesBook (by decide)⟩

/-! ## C9 — aggregation skips absent ids and sums per date -/

theorem optTraverse_eq_map (f : α → Option β) (g : α → β) (l : List α)
    (h : ∀ a ∈ l, f a = some (g a)) : optTraverse f l = some (l.map g) := by
  induction l with
  | nil => rfl
  | cons a l ih =>
    simp only [optTraverse, h a (by simp), ih (fun b hb => h b (by simp [hb])), List.map]

theorem selectCols_filter (pnl : List (String × List ℚ)) (ids : List String) :
    selectCols pnl (ids.filter (fun c => (colNames pnl).contains c))
      = some ((ids.filter (fun c => (colNames pnl).contains c)).map
          (fun c => (lookupCol pnl c).getD [])) := by
  unfold selectCols
  rw [if_pos]
  rw [List.all_eq_true]
  intro c hc
  exact (List.mem_filter.mp hc).2

theorem lookup_of_contains (pnl : List (String × List ℚ)) (c : String)
    (h : (colNames pnl).contains c = true) : ∃ l, lookupCol pnl c = some l := by
  unfold lookupCol
  have hmem : c ∈ colNames pnl := by simpa using h
  obtain ⟨p, hp, hpc⟩ := List.mem_map.mp hmem
  have hsome : (pnl.find? (fun q => q.1 == c)).isSome :=
    List.find?_isSome.mpr ⟨p, hp, by simp [hpc]⟩
  obtain ⟨q, hq⟩ := Option.isSome_iff_exists.mp hsome
  exact ⟨q.2, by rw [hq]; rfl⟩

theorem lookupCol_length (pnl : List (String × List ℚ)) (n : ℕ)
    (hcols : ∀ p ∈ pnl, p.2.length = n) (c : String) (l : List ℚ)
    (hl : lookupCol pnl c = some l) : l.length = n := by
  unfold lookupCol at hl
  cases hfind : pnl.find? (fun p => p.1 == c) with
  | none => rw [hfind] at hl; simp at hl
  | some p =>
    rw [hfind] at hl
    simp only [Option.map_some', Option.some_inj] at hl
    subst hl
    exact hcols p (List.mem_of_find?_eq_some hfind)

theorem getD_replicate_zero (n i : ℕ) : (List.replicate n (0 : ℚ)).getD i 0 = 0 := by
  induction n generalizing i with
  | zero => simp
  | succ m ih =>
    cases i with
    | zero => rfl
    | succ j => simp [ih j]

theorem zipWith_add_getD (l1 l2 : List ℚ) (i : ℕ) (h1 : i < l1.length) (h2 : i < l2.length) :
    (List.zipWith (fun a b => a + b) l1 l2).getD i 0 = l1.getD i 0 + l2.getD i 0 := by
  induction l1 generalizing l2 i with
  | nil => simp at h1
  | cons x xs ih =>
    cases l2 with
    | nil => simp at h2
    | cons y ys =>
      cases i with
      | zero => rfl
      | succ j =>
        simp only [List.length_cons, Nat.succ_lt_succ_iff] at h1 h2
        simpa using ih ys j h1 h2

theorem sumSeries_length (n : ℕ) (cols : List (List ℚ))
    (h : ∀ c ∈ cols, c.length = n) : (sumSeries n cols).length = n := by
  induction cols with
  | nil => simp [sumSeries]
  | cons c cs ih =>
    have hc : c.length = n := h c (by simp)
    have hcs := ih (fun d hd => h d (by simp [hd]))
    simp only [sumSeries, List.foldr_cons] at hcs ⊢
    rw [List.length_zipWith, hc, hcs, min_self]

theorem sumSeries_getD (n : ℕ) (cols : List (List ℚ)) (i : ℕ) (hi : i < n)
    (h : ∀ c ∈ cols, c.length = n) :
    (sumSeries n cols).getD i 0 = (cols.map (fun c => c.getD i 0)).sum := by
  induction cols with
  | nil => simp [sumSeries, getD_replicate_zero n i]
  | cons c cs ih =>
    have hc : c.length = n := h c (by simp)
    have hcs : ∀ d ∈ cs, d.length = n := fun d hd => h d (by simp [hd])
    have hstep : sumSeries n (c :: cs) = List.zipWith (fun a b => a + b) c (sumSeries n cs) := rfl
    have h1 : i < c.length := by rw [hc]; exact hi
    have h2 : i < (sumSeries n cs).length := by rw [sumSeries_length n cs hcs]; exact hi
    rw [hstep, zipWith_add_getD c (sumSeries n cs) i h1 h2, ih hcs]
    simp

/-- C9: on a P&L table whose columns all share the index length `n`,
aggregation never fails — each set keeps exactly its member ids that are
columns of the table (absent ids are skipped) — and the aggregated value
of a set at each date is the sum of its present members' values there. -/
theorem aggregate_set_pnl_spec (n : ℕ) (pnl : List (String × List ℚ))
    (netting_map : List (String × List String))
    (hcols : ∀ p ∈ pnl, p.2.length = n) :
    aggregate_set_pnl n pnl netting_map
      = some (netting_map.map (fun p =>
          (p.1, sumSeries n ((p.2.filter (fun c => (colNames pnl).contains c)).map
            (fun c => (lookupCol pnl c).getD [])))))
    ∧ ∀ ids : List String, ∀ i < n,
        (sumSeries n ((ids.filter (fun c => (colNames pnl).contains c)).map
          (fun c => (lookupCol pnl c).getD []))).getD i 0
        = ((ids.filter (fun c => (colNames pnl).contains c)).map
            (fun c => ((lookupCol pnl c).getD []).getD i 0)).sum := by
  constructor
  · unfold aggregate_set_pnl
    apply optTraverse_eq_map
    intro p _
    rw [selectCols_filter]
    rfl
  · intro ids i hi
    have hlen : ∀ c ∈ (ids.filter (fun c => (colNames pnl).contains c)).map
        (fun c => (lookupCol pnl c).getD []), c.length = n := by
      intro c hc
      obtain ⟨cid, hcid, rfl⟩ := List.mem_map.mp hc
      have hcontains : (colNames pnl).contains cid = true := (List.mem_filter.mp hcid).2
      obtain ⟨l, hl⟩ := lookup_of_contains pnl cid hcontains
      rw [hl]
      exact lookupCol_length pnl n hcols cid l hl
    rw [sumSeries_getD n _ i hi hlen, List.map_map]
    rfl

/-- Witness for C9 on a one-column table with a partially absent set. -/
theorem aggregate_set_pnl_spec_witness :
    (∀ p ∈ exPnlTable, p.2.length = 2)
    ∧ (aggregate_set_pnl 2 exPnlTable exNettingMap
        = some (exNettingMap.map (fun p =>
            (p.1, sumSeries 2 ((p.2.filter (fun c => (colNames exPnlTable).contains c)).map
              (fun c => (lookupCol exPnlTable c).getD [])))))
      ∧ ∀ ids : List String, ∀ i < 2,
          (sumSeries 2 ((ids.filter (fun c => (colNames exPnlTable).contains c)).map
            (fun c => (lookupCol exPnlTable c).getD []))).getD i 0
          = ((ids.filter (fun c => (colNames exPnlTable).contains c)).map
              (fun c => ((lookupCol exPnlTable c).getD []).getD i 0)).sum) :=
  ⟨by decide, aggregate_set_pnl_spec 2 exPnlTable exNettingMap (by decide)⟩
